import Mathlib

/-!
Verification of the timestampvm block logic (src/timestampvm/block.go).

The source file is embedded shallowly: Go pointers become indices into an
explicit heap of TimeBlock records, so the aliasing between a block and the
entry the VM's verifiedBlocks map keeps for it is modelled exactly; machine
integers become Nat/Int with an explicit `% 2 ^ 64` where the Go code performs
uint64 arithmetic; fallible store operations return Option, and a nil pointer
dereference is an explicit `crash` outcome.  The surrounding VM and its state
(vm.go and state.go are not among the staged sources) are modelled from the
spec where block.go consumes them.
-/

namespace Timestampvm

/-- Block identifiers: avalanchego ids.ID (a 32 byte hash value) is modelled as
a natural number. -/
abbrev ID := Nat

/-- Raw byte strings, modelled as lists of naturals. -/
abbrev Bytes := List Nat

/-- Go pointers, modelled as indices into an explicit heap. -/
abbrev Ptr := Nat

/-- Modelled from the spec: hashing.ComputeHash256Array, the external
cryptographic hash from avalanchego that derives a block's identity from its
encoded bytes.  It is modelled as a concrete deterministic function of the
byte string; only that it is a pure function of the bytes matters to the
properties below. -/
def ComputeHash256Array (bs : Bytes) : ID :=
  bs.foldl (fun h b => (h * 257 + b % 256 + 1) % 2 ^ 256) (bs.length + 1)

/-- Modelled from the spec: choices.Status from avalanchego, the lifecycle tag
of a block.  Unknown is the zero value. -/
inductive Status where
  | Unknown
  | Processing
  | Rejected
  | Accepted
deriving DecidableEq, Repr

/-- TimeBlock from block.go: the serialized fields PrntID, Hght, Tmstmp and Dt
together with the unexported fields id, bytes and status.  The Go back pointer
`vm` is replaced by explicit state passing; the flag `inited` records whether
that pointer has been set (it is set exactly by Initialize), because calling
Verify, Accept or Reject with a nil vm pointer would dereference nil. -/
structure TimeBlock where
  PrntID : ID
  Hght : Nat
  Tmstmp : Int
  Dt : Bytes
  id : ID
  bytes : Bytes
  status : Status
  inited : Bool
deriving DecidableEq, Repr

/-- SetStatus from block.go: sets the status of this block. -/
def TimeBlock.SetStatus (b : TimeBlock) (status : Status) : TimeBlock :=
  { b with status := status }

/-- Initialize from block.go: sets the block's bytes, sets its id to the hash
of those bytes, adopts the given status and binds the vm back pointer (the
`inited` flag here). -/
def TimeBlock.Initialize (b : TimeBlock) (bytes : Bytes) (status : Status) :
    TimeBlock :=
  { b with
    inited := true
    bytes := bytes
    id := ComputeHash256Array bytes
    status := status }

/-- newTimeBlock from block.go: a fresh block carrying only the four
serialized fields; the unexported fields keep their Go zero values. -/
def newTimeBlock (parentID : ID) (height : Nat) (data : Bytes)
    (timestamp : Int) : TimeBlock :=
  { PrntID := parentID
    Hght := height
    Tmstmp := timestamp
    Dt := data
    id := 0
    bytes := []
    status := .Unknown
    inited := false }

/-- Association-list lookup keyed by block id, the first match wins. -/
def mapLookup {α : Type} : List (ID × α) → ID → Option α
  | [], _ => none
  | (k2, v) :: rest, k => if k2 = k then some v else mapLookup rest k

/-- Association-list removal of every entry under a key, as Go's delete. -/
def mapDelete {α : Type} : List (ID × α) → ID → List (ID × α)
  | [], _ => []
  | (k2, v) :: rest, k =>
    if k2 = k then mapDelete rest k else (k2, v) :: mapDelete rest k

/-- Association-list insertion replacing any prior entry under the key, as a
Go map assignment. -/
def mapInsert {α : Type} (l : List (ID × α)) (k : ID) (v : α) :
    List (ID × α) :=
  (k, v) :: mapDelete l k

/-- Heap read at an index. -/
def listGet {α : Type} : List α → Nat → Option α
  | [], _ => none
  | a :: _, 0 => some a
  | _ :: rest, n + 1 => listGet rest n

/-- Heap write at an index, identity beyond the end. -/
def listSet {α : Type} : List α → Nat → α → List α
  | [], _, _ => []
  | _ :: rest, 0, b => b :: rest
  | a :: rest, n + 1, b => a :: listSet rest n b

/-- Modelled from the spec: the durable record the Store keeps for a block
(state.go is not among the staged sources).  PutBlock serializes the block, so
the record is a snapshot of its fields and status with no aliasing into the
heap. -/
structure StoredBlock where
  PrntID : ID
  Hght : Nat
  Tmstmp : Int
  Dt : Bytes
  id : ID
  bytes : Bytes
  status : Status
deriving DecidableEq, Repr

/-- The snapshot PutBlock persists for a block. -/
def StoredBlock.ofBlock (b : TimeBlock) : StoredBlock :=
  ⟨b.PrntID, b.Hght, b.Tmstmp, b.Dt, b.id, b.bytes, b.status⟩

/-- The block a Store hit yields back to the VM: a parsed block is bound to
its context, so its vm pointer is set. -/
def StoredBlock.toTimeBlock (r : StoredBlock) : TimeBlock :=
  ⟨r.PrntID, r.Hght, r.Tmstmp, r.Dt, r.id, r.bytes, r.status, true⟩

/-- One store operation, recorded in order so that the ordering requirements
of the spec (block record written before the last-accepted pointer, both
committed together) are statable. -/
inductive StoreEvent where
  | putBlock (blkID : ID) (rec : StoredBlock)
  | setLastAccepted (blkID : ID)
  | commit
deriving DecidableEq, Repr

/-- Modelled from the spec: the Store collaborator.  Writes are staged and
become durable atomically at Commit; the fail flags inject the store failures
whose surfacing the spec describes; trace records the order of the issued
store operations. -/
structure StoreState where
  blocks : List (ID × StoredBlock)
  lastAccepted : ID
  staged : List (ID × StoredBlock)
  stagedLastAccepted : Option ID
  failPut : Bool
  failSetLastAccepted : Bool
  failCommit : Bool
  trace : List StoreEvent
deriving DecidableEq, Repr

/-- Modelled from the spec: Store.PutBlock stages the block record under its
id; on failure nothing is written. -/
def StoreState.PutBlock (st : StoreState) (blkID : ID) (rec : StoredBlock) :
    Option StoreState :=
  if st.failPut then none
  else some { st with
    staged := mapInsert st.staged blkID rec
    trace := st.trace ++ [.putBlock blkID rec] }

/-- Modelled from the spec: Store.SetLastAccepted stages the last-accepted
pointer; on failure nothing is written. -/
def StoreState.SetLastAccepted (st : StoreState) (blkID : ID) :
    Option StoreState :=
  if st.failSetLastAccepted then none
  else some { st with
    stagedLastAccepted := some blkID
    trace := st.trace ++ [.setLastAccepted blkID] }

/-- Modelled from the spec: Store.Commit makes every staged write durable
atomically; on failure nothing becomes durable. -/
def StoreState.Commit (st : StoreState) : Option StoreState :=
  if st.failCommit then none
  else some { st with
    blocks := st.staged.foldl (fun acc kv => mapInsert acc kv.1 kv.2) st.blocks
    lastAccepted := st.stagedLastAccepted.getD st.lastAccepted
    staged := []
    stagedLastAccepted := none
    trace := st.trace ++ [.commit] }

/-- The last-accepted pointer as a store client reads it: a staged write is
visible before it is committed. -/
def StoreState.getLastAccepted (st : StoreState) : ID :=
  st.stagedLastAccepted.getD st.lastAccepted

/-- Modelled from the spec: Store.GetBlock reads through the staged writes to
the durable records. -/
def StoreState.GetBlock (st : StoreState) (blkID : ID) : Option StoredBlock :=
  match mapLookup st.staged blkID with
  | some r => some r
  | none => mapLookup st.blocks blkID

/-- Modelled from the spec: the VM context every block reaches through its
back pointer (vm.go is not among the staged sources): the heap of live
TimeBlock records (Go pointers become indices), the verifiedBlocks pending map
from block id to pointer, and the Store. -/
structure VM where
  heap : List TimeBlock
  verifiedBlocks : List (ID × Ptr)
  state : StoreState
deriving DecidableEq, Repr

/-- Modelled from the spec: VM.GetBlock, the lookup Verify uses for the
parent.  A pending block in verifiedBlocks is found first (the spec gives the
PendingBlockSet exactly so that a child's Verify can see a parent that is not
yet durable); otherwise the Store is consulted. -/
def VM.GetBlock (vm : VM) (blkID : ID) : Option TimeBlock :=
  match mapLookup vm.verifiedBlocks blkID with
  | some p => listGet vm.heap p
  | none => (vm.state.GetBlock blkID).map StoredBlock.toTimeBlock

/-- The validation errors Verify can return, one constructor per Go error
value; heightMismatch carries the two heights of the fmt.Errorf message. -/
inductive VerifyError where
  | blockNil
  | databaseGet
  | heightMismatch (expected found : Nat)
  | timestampTooEarly
  | timestampTooLate
deriving DecidableEq, Repr

/-- The persistence errors Accept and Reject surface, one constructor per
failing store operation. -/
inductive PersistError where
  | putBlock
  | setLastAccepted
  | commit
deriving DecidableEq, Repr

/-- The outcome of one exported call: success, a returned error, or a crash
(a nil pointer dereference aborting the program). -/
inductive OpResult (ε : Type) where
  | ok
  | err (e : ε)
  | crash
deriving DecidableEq, Repr

/-- The Go local `expectedHeight := parent.Height() + 1`: heights are uint64,
so the increment wraps modulo 2 ^ 64. -/
def expectedHeight (parentHeight : Nat) : Nat := (parentHeight + 1) % 2 ^ 64

/-- Verify from block.go, over an explicit VM state.  `ref` is the Go receiver
pointer, none being a nil receiver (the guarded case); `now` is the Unix time
that time.Now() reads; parent.Height() + 1 is computed in uint64 arithmetic.
A block whose vm pointer was never bound by Initialize dereferences nil at
b.vm.GetBlock, modelled as crash. -/
def Verify (now : Int) (vm : VM) (ref : Option Ptr) :
    OpResult VerifyError × VM :=
  match ref with
  | none => (.err .blockNil, vm)
  | some p =>
    match listGet vm.heap p with
    | none => (.crash, vm)
    | some b =>
      if b.inited = false then (.crash, vm)
      else
        match vm.GetBlock b.PrntID with
        | none => (.err .databaseGet, vm)
        | some parent =>
          if expectedHeight parent.Hght ≠ b.Hght then
            (.err (.heightMismatch (expectedHeight parent.Hght) b.Hght), vm)
          else if b.Tmstmp < parent.Tmstmp then
            (.err .timestampTooEarly, vm)
          else if now + 3600 ≤ b.Tmstmp then
            (.err .timestampTooLate, vm)
          else
            (.ok, { vm with
              verifiedBlocks := mapInsert vm.verifiedBlocks b.id p })

/-- Accept from block.go: sets the status to Accepted first, then persists the
block record, then the last-accepted pointer, removes the block from
verifiedBlocks and commits; each store failure returns at once.  A nil
receiver crashes inside b.SetStatus; an unbound vm pointer crashes after the
status was already mutated. -/
def Accept (vm : VM) (ref : Option Ptr) : OpResult PersistError × VM :=
  match ref with
  | none => (.crash, vm)
  | some p =>
    match listGet vm.heap p with
    | none => (.crash, vm)
    | some b0 =>
      let b := b0.SetStatus .Accepted
      let vm1 : VM := { vm with heap := listSet vm.heap p b }
      if b.inited = false then (.crash, vm1)
      else
        match vm1.state.PutBlock b.id (StoredBlock.ofBlock b) with
        | none => (.err .putBlock, vm1)
        | some st1 =>
          let vm2 : VM := { vm1 with state := st1 }
          match vm2.state.SetLastAccepted b.id with
          | none => (.err .setLastAccepted, vm2)
          | some st2 =>
            let vm3 : VM := { vm2 with
              state := st2
              verifiedBlocks := mapDelete vm2.verifiedBlocks b.id }
            match vm3.state.Commit with
            | none => (.err .commit, vm3)
            | some st3 => (.ok, { vm3 with state := st3 })

/-- Reject from block.go: sets the status to Rejected first, then persists the
block record, removes the block from verifiedBlocks and commits; it never
touches the last-accepted pointer.  Crash cases as for Accept. -/
def Reject (vm : VM) (ref : Option Ptr) : OpResult PersistError × VM :=
  match ref with
  | none => (.crash, vm)
  | some p =>
    match listGet vm.heap p with
    | none => (.crash, vm)
    | some b0 =>
      let b := b0.SetStatus .Rejected
      let vm1 : VM := { vm with heap := listSet vm.heap p b }
      if b.inited = false then (.crash, vm1)
      else
        match vm1.state.PutBlock b.id (StoredBlock.ofBlock b) with
        | none => (.err .putBlock, vm1)
        | some st1 =>
          let vm2 : VM := { vm1 with
            state := st1
            verifiedBlocks := mapDelete vm1.verifiedBlocks b.id }
          match vm2.state.Commit with
          | none => (.err .commit, vm2)
          | some st2 => (.ok, { vm2 with state := st2 })

/-- One call of the capability set the external consensus engine drives, with
its arguments: block construction, Initialize, Verify, Accept, Reject.  The
read-only accessors (ID, Parent, Height, Timestamp, Status, Bytes, Data) are
pure and appear as plain functions, so they need no label. -/
inductive Label where
  | newBlk (parentID : ID) (height : Nat) (data : Bytes) (timestamp : Int)
  | initBlk (p : Ptr) (bytes : Bytes) (status : Status)
  | verifyBlk (now : Int) (ref : Option Ptr)
  | acceptBlk (ref : Option Ptr)
  | rejectBlk (ref : Option Ptr)
deriving DecidableEq, Repr

/-- The state transition of one call; none when the call crashes (a crashed
program has no next state). -/
def applyLabel (l : Label) (vm : VM) : Option VM :=
  match l with
  | .newBlk pid h d t =>
    some { vm with heap := vm.heap ++ [newTimeBlock pid h d t] }
  | .initBlk p bytes status =>
    match listGet vm.heap p with
    | none => none
    | some b =>
      some { vm with heap := listSet vm.heap p (b.Initialize bytes status) }
  | .verifyBlk now ref =>
    match Verify now vm ref with
    | (.crash, _) => none
    | (_, vm2) => some vm2
  | .acceptBlk ref =>
    match Accept vm ref with
    | (.crash, _) => none
    | (_, vm2) => some vm2
  | .rejectBlk ref =>
    match Reject vm ref with
    | (.crash, _) => none
    | (_, vm2) => some vm2

/-- A fresh VM: no live blocks, an empty pending set, a store with arbitrary
durable contents (the chain the VM booted from), nothing staged, and a fixed
failure behaviour for each store operation. -/
def initialVM (blocks : List (ID × StoredBlock)) (lastAccepted : ID)
    (failPut failSetLastAccepted failCommit : Bool) : VM :=
  { heap := []
    verifiedBlocks := []
    state := {
      blocks := blocks
      lastAccepted := lastAccepted
      staged := []
      stagedLastAccepted := none
      failPut := failPut
      failSetLastAccepted := failSetLastAccepted
      failCommit := failCommit
      trace := [] } }

/-- The states reachable by any sequence of exported calls from a fresh VM. -/
inductive Reachable : VM → Prop where
  | start (blocks la fp fs fc) : Reachable (initialVM blocks la fp fs fc)
  | step {vm vm2 : VM} (l : Label) :
      Reachable vm → applyLabel l vm = some vm2 → Reachable vm2

/-- The contracts the spec puts on the external engine, per call: Initialize
is not re-run on a block the pending set still holds, Verify is not re-run on
a block already decided, and Accept and Reject return success. -/
def GoodLabel (vm : VM) : Label → Prop
  | .newBlk _ _ _ _ => True
  | .initBlk p _ _ => ∀ e ∈ vm.verifiedBlocks, e.2 ≠ p
  | .verifyBlk _ ref =>
    ∀ p b, ref = some p → listGet vm.heap p = some b →
      b.status ≠ .Accepted ∧ b.status ≠ .Rejected
  | .acceptBlk ref => (Accept vm ref).1 = .ok
  | .rejectBlk ref => (Reject vm ref).1 = .ok

/-- The states reachable by sequences of exported calls that respect the
engine-side contracts of GoodLabel. -/
inductive ReachableGood : VM → Prop where
  | start (blocks la fp fs fc) : ReachableGood (initialVM blocks la fp fs fc)
  | step {vm vm2 : VM} (l : Label) :
      ReachableGood vm → GoodLabel vm l → applyLabel l vm = some vm2 →
      ReachableGood vm2

/-- A stored parent of height 2 ^ 64 − 1 (the largest uint64 value), under
store key 17. -/
def c1parentRec : StoredBlock := ⟨0, 2 ^ 64 - 1, 0, [], 17, [], .Accepted⟩

/-- A live initialized child of the block above with height 0. -/
def c1child : TimeBlock :=
  ⟨17, 0, 0, [], ComputeHash256Array [3], [3], .Processing, true⟩

/-- The VM holding the two blocks above. -/
def c1vm : VM :=
  { heap := [c1child]
    verifiedBlocks := []
    state := { blocks := [(17, c1parentRec)], lastAccepted := 17, staged := []
               stagedLastAccepted := none, failPut := false
               failSetLastAccepted := false, failCommit := false, trace := [] } }

/-- A stored parent at height 0 and Unix time 100, under store key 23. -/
def c1wparent : StoredBlock := ⟨0, 0, 100, [], 23, [], .Accepted⟩

/-- A live initialized child of the block above, height 1, Unix time 150. -/
def c1wchild : TimeBlock :=
  ⟨23, 1, 150, [], ComputeHash256Array [5], [5], .Processing, true⟩

/-- The VM holding the two blocks above. -/
def c1wvm : VM :=
  { heap := [c1wchild]
    verifiedBlocks := []
    state := { blocks := [(23, c1wparent)], lastAccepted := 23, staged := []
               stagedLastAccepted := none, failPut := false
               failSetLastAccepted := false, failCommit := false, trace := [] } }

/-- A live initialized block pending under its id, over a store whose
operations all succeed. -/
def c2blk : TimeBlock :=
  ⟨5, 1, 0, [], ComputeHash256Array [9], [9], .Processing, true⟩

/-- The VM holding the block above in its pending set. -/
def c2vm : VM :=
  { heap := [c2blk]
    verifiedBlocks := [(ComputeHash256Array [9], 0)]
    state := { blocks := [], lastAccepted := 0, staged := []
               stagedLastAccepted := none, failPut := false
               failSetLastAccepted := false, failCommit := false, trace := [] } }

/-- A stored genesis under key 40 for the C3 run. -/
def c3grec : StoredBlock := ⟨0, 0, 0, [], 40, [], .Accepted⟩

/-- A fresh VM over a store whose PutBlock fails. -/
def c3vm0 : VM := initialVM [(40, c3grec)] 40 true false false

/-- The VM above after constructing a child of genesis. -/
def c3vm1 : VM := { c3vm0 with heap := [newTimeBlock 40 1 [] 0] }

/-- The VM above after Initialize on that child. -/
def c3vm2 : VM :=
  { c3vm0 with heap := [(newTimeBlock 40 1 [] 0).Initialize [7] .Processing] }

/-- The VM above after a successful Verify on the child. -/
def c3vm3 : VM := (Verify 0 c3vm2 (some 0)).2

/-- The VM above after Accept on the child returned a persistence error. -/
def c3vmBad : VM := (Accept c3vm3 (some 0)).2

/-- A stored genesis under key 40 for the contract-respecting C3 run. -/
def c3wrec : StoredBlock := ⟨0, 0, 0, [], 40, [], .Accepted⟩

/-- A fresh VM over a store whose operations all succeed. -/
def c3wvm0 : VM := initialVM [(40, c3wrec)] 40 false false false

/-- The VM above after constructing a child of genesis. -/
def c3wvm1 : VM := { c3wvm0 with heap := [newTimeBlock 40 1 [] 0] }

/-- The VM above after Initialize on that child. -/
def c3wvm2 : VM :=
  { c3wvm0 with heap := [(newTimeBlock 40 1 [] 0).Initialize [8] .Processing] }

/-- The VM above after a successful Verify on the child. -/
def c3wvm3 : VM := (Verify 0 c3wvm2 (some 0)).2

/-- A fresh VM over a store whose operations all succeed. -/
def c4vm0 : VM := initialVM [] 0 false false false

/-- The VM above after constructing a block. -/
def c4vm1 : VM := { c4vm0 with heap := [newTimeBlock 5 1 [] 0] }

/-- The VM above after Initialize on that block. -/
def c4vm2 : VM :=
  { c4vm0 with heap := [(newTimeBlock 5 1 [] 0).Initialize [4] .Processing] }

/-- The VM above after a successful Accept on the block. -/
def c4vmA : VM := (Accept c4vm2 (some 0)).2

/-- The VM above after a further successful Reject on the same block. -/
def c4vmR : VM := (Reject c4vmA (some 0)).2

/-- The VM c4vmA after one more block construction, for the C4 witness. -/
def c4vmN : VM := { c4vmA with heap := c4vmA.heap ++ [newTimeBlock 1 1 [] 0] }

/-- A live initialized block pending under its id, over a store whose
operations all succeed, for the C6 witness. -/
def c6parent : StoredBlock := ⟨0, 3, 20, [], 31, [], .Accepted⟩

/-- A live initialized child of the stored block above. -/
def c6blk : TimeBlock :=
  ⟨31, 4, 25, [], ComputeHash256Array [6], [6], .Processing, true⟩

/-- The VM holding the stored parent and the live child. -/
def c6vm : VM :=
  { heap := [c6blk]
    verifiedBlocks := []
    state := { blocks := [(31, c6parent)], lastAccepted := 31, staged := []
               stagedLastAccepted := none, failPut := false
               failSetLastAccepted := false, failCommit := false, trace := [] } }

/-- The VM above after the child's successful Verify. -/
def c6vm2 : VM :=
  { c6vm with verifiedBlocks := [(ComputeHash256Array [6], 0)] }

/-- A live initialized block over a store whose PutBlock fails, for C8. -/
def c8blk : TimeBlock :=
  ⟨2, 1, 0, [], ComputeHash256Array [1], [1], .Processing, true⟩

/-- The VM holding the block above. -/
def c8vm : VM :=
  { heap := [c8blk]
    verifiedBlocks := [(ComputeHash256Array [1], 0)]
    state := { blocks := [], lastAccepted := 0, staged := []
               stagedLastAccepted := none, failPut := true
               failSetLastAccepted := false, failCommit := false, trace := [] } }

/-- A live initialized block over a store whose operations all succeed, for
C9. -/
def c9blk : TimeBlock :=
  ⟨2, 1, 0, [], ComputeHash256Array [2], [2], .Processing, true⟩

/-- The VM holding the block above. -/
def c9vm : VM :=
  { heap := [c9blk]
    verifiedBlocks := []
    state := { blocks := [], lastAccepted := 0, staged := []
               stagedLastAccepted := none, failPut := false
               failSetLastAccepted := false, failCommit := false, trace := [] } }

theorem mapLookup_mapDelete_self {α : Type} (l : List (ID × α)) (k : ID) :
    mapLookup (mapDelete l k) k = none := by
  induction l with
  | nil => rfl
  | cons kv rest ih =>
    obtain ⟨k2, v⟩ := kv
    by_cases h : k2 = k <;> simp [mapDelete, mapLookup, h, ih]

theorem mapLookup_mapDelete_ne {α : Type} (l : List (ID × α)) {k k2 : ID}
    (h : k2 ≠ k) : mapLookup (mapDelete l k) k2 = mapLookup l k2 := by
  induction l with
  | nil => rfl
  | cons kv rest ih =>
    obtain ⟨k3, v⟩ := kv
    by_cases h3 : k3 = k
    · subst h3
      simp [mapDelete, mapLookup, Ne.symm h, ih]
    · by_cases h4 : k3 = k2 <;> simp [mapDelete, mapLookup, h3, h4, h, ih]

theorem mapDelete_mapDelete_self {α : Type} (l : List (ID × α)) (k : ID) :
    mapDelete (mapDelete l k) k = mapDelete l k := by
  induction l with
  | nil => rfl
  | cons kv rest ih =>
    obtain ⟨k2, v⟩ := kv
    by_cases h : k2 = k <;> simp [mapDelete, h, ih]

theorem mem_mapDelete {α : Type} {l : List (ID × α)} {k : ID} {e : ID × α}
    (h : e ∈ mapDelete l k) : e ∈ l ∧ e.1 ≠ k := by
  induction l with
  | nil => simp [mapDelete] at h
  | cons kv rest ih =>
    obtain ⟨k2, v⟩ := kv
    by_cases h2 : k2 = k
    · simp only [mapDelete, if_pos h2] at h
      exact ⟨List.mem_cons_of_mem _ (ih h).1, (ih h).2⟩
    · simp only [mapDelete, if_neg h2] at h
      rcases List.mem_cons.mp h with h3 | h3
      · subst h3; exact ⟨List.mem_cons_self _ _, h2⟩
      · exact ⟨List.mem_cons_of_mem _ (ih h3).1, (ih h3).2⟩

theorem mapLookup_mapInsert_self {α : Type} (l : List (ID × α)) (k : ID)
    (v : α) : mapLookup (mapInsert l k v) k = some v := by
  simp [mapInsert, mapLookup]

theorem mapLookup_mapInsert_ne {α : Type} (l : List (ID × α)) {k k2 : ID}
    (v : α) (h : k2 ≠ k) :
    mapLookup (mapInsert l k v) k2 = mapLookup l k2 := by
  simp [mapInsert, mapLookup, Ne.symm h, mapLookup_mapDelete_ne l h]

theorem mapInsert_mapInsert_self {α : Type} (l : List (ID × α)) (k : ID)
    (v : α) : mapInsert (mapInsert l k v) k v = mapInsert l k v := by
  simp [mapInsert, mapDelete, mapDelete_mapDelete_self]

theorem mem_mapInsert {α : Type} {l : List (ID × α)} {k : ID} {v : α}
    {e : ID × α} (h : e ∈ mapInsert l k v) : e = (k, v) ∨ e ∈ l := by
  rcases List.mem_cons.mp h with h2 | h2
  · exact Or.inl h2
  · exact Or.inr (mem_mapDelete h2).1

theorem mapLookup_foldl_mapInsert_ne {α : Type} (rest : List (ID × α))
    (acc : List (ID × α)) {k : ID} (h : ∀ e ∈ rest, e.1 ≠ k) :
    mapLookup (rest.foldl (fun a kv => mapInsert a kv.1 kv.2) acc) k =
      mapLookup acc k := by
  induction rest generalizing acc with
  | nil => rfl
  | cons kv rest ih =>
    simp only [List.foldl_cons]
    rw [ih _ fun e he => h e (List.mem_cons_of_mem _ he)]
    exact mapLookup_mapInsert_ne acc kv.2
      (Ne.symm (h kv (List.mem_cons_self _ _)))

theorem listGet_listSet_ne {α : Type} (l : List α) {m n : Nat} (b : α)
    (h : m ≠ n) : listGet (listSet l n b) m = listGet l m := by
  induction l generalizing m n with
  | nil => rfl
  | cons a rest ih =>
    cases n with
    | zero => cases m with
      | zero => exact absurd rfl h
      | succ m => rfl
    | succ n => cases m with
      | zero => rfl
      | succ m => exact ih (by omega)

theorem listGet_listSet_self {α : Type} {l : List α} {n : Nat} {a : α}
    (b : α) (h : listGet l n = some a) :
    listGet (listSet l n b) n = some b := by
  induction l generalizing n with
  | nil => simp [listGet] at h
  | cons c rest ih =>
    cases n with
    | zero => rfl
    | succ n => exact ih h

theorem listGet_append_left {α : Type} {l : List α} {n : Nat} {a : α}
    (l2 : List α) (h : listGet l n = some a) :
    listGet (l ++ l2) n = some a := by
  induction l generalizing n with
  | nil => simp [listGet] at h
  | cons c rest ih =>
    cases n with
    | zero => exact h
    | succ n => exact ih h

theorem Accept_ok_result (vm : VM) (p : Ptr) (b0 : TimeBlock)
    (hb : listGet vm.heap p = some b0) (hi : b0.inited = true)
    (h1 : vm.state.failPut = false) (h2 : vm.state.failSetLastAccepted = false)
    (h3 : vm.state.failCommit = false) :
    Accept vm (some p) =
      (.ok, { heap := listSet vm.heap p (b0.SetStatus .Accepted)
              verifiedBlocks := mapDelete vm.verifiedBlocks b0.id
              state := {
                blocks :=
                  (mapInsert vm.state.staged b0.id
                      (StoredBlock.ofBlock (b0.SetStatus .Accepted))).foldl
                    (fun a kv => mapInsert a kv.1 kv.2) vm.state.blocks
                lastAccepted := b0.id
                staged := []
                stagedLastAccepted := none
                failPut := false
                failSetLastAccepted := false
                failCommit := false
                trace := vm.state.trace ++
                  [.putBlock b0.id (StoredBlock.ofBlock (b0.SetStatus .Accepted)),
                   .setLastAccepted b0.id, .commit] } }) := by
  simp [Accept, StoreState.PutBlock, StoreState.SetLastAccepted,
    StoreState.Commit, TimeBlock.SetStatus, hb, hi, h1, h2, h3]

theorem Accept_ok_elim {vm : VM} {ref : Option Ptr}
    (h : (Accept vm ref).1 = .ok) :
    ∃ p b0, ref = some p ∧ listGet vm.heap p = some b0 ∧
      b0.inited = true ∧ vm.state.failPut = false ∧
      vm.state.failSetLastAccepted = false ∧ vm.state.failCommit = false := by
  match ref with
  | none => simp [Accept] at h
  | some p =>
    match hb : listGet vm.heap p with
    | none => simp [Accept, hb] at h
    | some b0 =>
      match hi : b0.inited with
      | false => simp [Accept, TimeBlock.SetStatus, hb, hi] at h
      | true =>
        match h1 : vm.state.failPut with
        | true =>
          simp [Accept, StoreState.PutBlock, TimeBlock.SetStatus,
            hb, hi, h1] at h
        | false =>
          match h2 : vm.state.failSetLastAccepted with
          | true =>
            simp [Accept, StoreState.PutBlock, StoreState.SetLastAccepted,
              TimeBlock.SetStatus, hb, hi, h1, h2] at h
          | false =>
            match h3 : vm.state.failCommit with
            | true =>
              simp [Accept, StoreState.PutBlock, StoreState.SetLastAccepted,
                StoreState.Commit, TimeBlock.SetStatus, hb, hi, h1, h2,
                h3] at h
            | false => exact ⟨p, b0, rfl, hb, hi, rfl, rfl, rfl⟩

theorem Reject_ok_result (vm : VM) (p : Ptr) (b0 : TimeBlock)
    (hb : listGet vm.heap p = some b0) (hi : b0.inited = true)
    (h1 : vm.state.failPut = false) (h3 : vm.state.failCommit = false) :
    Reject vm (some p) =
      (.ok, { heap := listSet vm.heap p (b0.SetStatus .Rejected)
              verifiedBlocks := mapDelete vm.verifiedBlocks b0.id
              state := {
                blocks :=
                  (mapInsert vm.state.staged b0.id
                      (StoredBlock.ofBlock (b0.SetStatus .Rejected))).foldl
                    (fun a kv => mapInsert a kv.1 kv.2) vm.state.blocks
                lastAccepted := vm.state.getLastAccepted
                staged := []
                stagedLastAccepted := none
                failPut := false
                failSetLastAccepted := vm.state.failSetLastAccepted
                failCommit := false
                trace := vm.state.trace ++
                  [.putBlock b0.id (StoredBlock.ofBlock (b0.SetStatus .Rejected)),
                   .commit] } }) := by
  simp [Reject, StoreState.PutBlock, StoreState.Commit,
    StoreState.getLastAccepted, TimeBlock.SetStatus, hb, hi, h1, h3]

theorem Reject_ok_elim {vm : VM} {ref : Option Ptr}
    (h : (Reject vm ref).1 = .ok) :
    ∃ p b0, ref = some p ∧ listGet vm.heap p = some b0 ∧
      b0.inited = true ∧ vm.state.failPut = false ∧
      vm.state.failCommit = false := by
  match ref with
  | none => simp [Reject] at h
  | some p =>
    match hb : listGet vm.heap p with
    | none => simp [Reject, hb] at h
    | some b0 =>
      match hi : b0.inited with
      | false => simp [Reject, TimeBlock.SetStatus, hb, hi] at h
      | true =>
        match h1 : vm.state.failPut with
        | true =>
          simp [Reject, StoreState.PutBlock, TimeBlock.SetStatus,
            hb, hi, h1] at h
        | false =>
          match h3 : vm.state.failCommit with
          | true =>
            simp [Reject, StoreState.PutBlock, StoreState.Commit,
              TimeBlock.SetStatus, hb, hi, h1, h3] at h
          | false => exact ⟨p, b0, rfl, hb, hi, rfl, rfl⟩

theorem Accept_err_status {vm : VM} {ref : Option Ptr} {e : PersistError}
    (h : (Accept vm ref).1 = .err e) :
    ∃ p b0, ref = some p ∧ listGet vm.heap p = some b0 ∧
      listGet (Accept vm ref).2.heap p =
        some (b0.SetStatus .Accepted) := by
  match ref with
  | none => simp [Accept] at h
  | some p =>
    match hb : listGet vm.heap p with
    | none => simp [Accept, hb] at h
    | some b0 =>
      refine ⟨p, b0, rfl, hb, ?_⟩
      have hset : listGet (listSet vm.heap p (b0.SetStatus .Accepted)) p =
          some (b0.SetStatus .Accepted) := listGet_listSet_self _ hb
      match hi : b0.inited with
      | false => simp [Accept, TimeBlock.SetStatus, hb, hi] at h
      | true =>
        match h1 : vm.state.failPut with
        | true =>
          simpa [Accept, StoreState.PutBlock, TimeBlock.SetStatus,
            hb, hi, h1] using hset
        | false =>
          match h2 : vm.state.failSetLastAccepted with
          | true =>
            simpa [Accept, StoreState.PutBlock, StoreState.SetLastAccepted,
              TimeBlock.SetStatus, hb, hi, h1, h2] using hset
          | false =>
            match h3 : vm.state.failCommit with
            | true =>
              simpa [Accept, StoreState.PutBlock, StoreState.SetLastAccepted,
                StoreState.Commit, TimeBlock.SetStatus, hb, hi, h1, h2,
                h3] using hset
            | false =>
              simp [Accept, StoreState.PutBlock, StoreState.SetLastAccepted,
                StoreState.Commit, TimeBlock.SetStatus, hb, hi, h1, h2,
                h3] at h

theorem Reject_err_status {vm : VM} {ref : Option Ptr} {e : PersistError}
    (h : (Reject vm ref).1 = .err e) :
    ∃ p b0, ref = some p ∧ listGet vm.heap p = some b0 ∧
      listGet (Reject vm ref).2.heap p =
        some (b0.SetStatus .Rejected) := by
  match ref with
  | none => simp [Reject] at h
  | some p =>
    match hb : listGet vm.heap p with
    | none => simp [Reject, hb] at h
    | some b0 =>
      refine ⟨p, b0, rfl, hb, ?_⟩
      have hset : listGet (listSet vm.heap p (b0.SetStatus .Rejected)) p =
          some (b0.SetStatus .Rejected) := listGet_listSet_self _ hb
      match hi : b0.inited with
      | false => simp [Reject, TimeBlock.SetStatus, hb, hi] at h
      | true =>
        match h1 : vm.state.failPut with
        | true =>
          simpa [Reject, StoreState.PutBlock, TimeBlock.SetStatus,
            hb, hi, h1] using hset
        | false =>
          match h3 : vm.state.failCommit with
          | true =>
            simpa [Reject, StoreState.PutBlock, StoreState.Commit,
              TimeBlock.SetStatus, hb, hi, h1, h3] using hset
          | false =>
            simp [Reject, StoreState.PutBlock, StoreState.Commit,
              TimeBlock.SetStatus, hb, hi, h1, h3] at h

theorem Verify_ok_result (now : Int) (vm : VM) (p : Ptr)
    (b parent : TimeBlock) (hb : listGet vm.heap p = some b)
    (hi : b.inited = true) (hp : vm.GetBlock b.PrntID = some parent)
    (hh : expectedHeight parent.Hght = b.Hght)
    (ht1 : parent.Tmstmp ≤ b.Tmstmp) (ht2 : b.Tmstmp < now + 3600) :
    Verify now vm (some p) =
      (.ok, { vm with verifiedBlocks := mapInsert vm.verifiedBlocks b.id p }) := by
  simp [Verify, hb, hi, hp, hh, not_lt.mpr ht1, not_le.mpr ht2]

theorem Verify_shape (now : Int) (vm : VM) (ref : Option Ptr) :
    (Verify now vm ref).2 = vm ∨
    ∃ p b, ref = some p ∧ listGet vm.heap p = some b ∧
      (Verify now vm ref).1 = .ok ∧
      (Verify now vm ref).2 =
        { vm with verifiedBlocks := mapInsert vm.verifiedBlocks b.id p } := by
  match ref with
  | none => exact Or.inl rfl
  | some p =>
    match hb : listGet vm.heap p with
    | none => left; simp [Verify, hb]
    | some b =>
      match hi : b.inited with
      | false => left; simp [Verify, hb, hi]
      | true =>
        match hp : vm.GetBlock b.PrntID with
        | none => left; simp [Verify, hb, hi, hp]
        | some parent =>
          by_cases hh : expectedHeight parent.Hght = b.Hght
          · by_cases ht1 : b.Tmstmp < parent.Tmstmp
            · left; simp [Verify, hb, hi, hp, hh, ht1]
            · by_cases ht2 : now + 3600 ≤ b.Tmstmp
              · left; simp [Verify, hb, hi, hp, hh, ht1, ht2]
              · right
                exact ⟨p, b, rfl, hb,
                  by simp [Verify, hb, hi, hp, hh, ht1, ht2],
                  by simp [Verify, hb, hi, hp, hh, ht1, ht2]⟩
          · left; simp [Verify, hb, hi, hp, hh]

theorem Verify_ok_elim {now : Int} {vm : VM} {ref : Option Ptr}
    (h : (Verify now vm ref).1 = .ok) :
    ∃ p b, ref = some p ∧ listGet vm.heap p = some b ∧ b.inited = true ∧
      (Verify now vm ref).2 =
        { vm with verifiedBlocks := mapInsert vm.verifiedBlocks b.id p } := by
  match ref with
  | none => simp [Verify] at h
  | some p =>
    match hb : listGet vm.heap p with
    | none => simp [Verify, hb] at h
    | some b =>
      match hi : b.inited with
      | false => simp [Verify, hb, hi] at h
      | true =>
        match hp : vm.GetBlock b.PrntID with
        | none => simp [Verify, hb, hi, hp] at h
        | some parent =>
          refine ⟨p, b, rfl, hb, hi, ?_⟩
          by_cases hh : expectedHeight parent.Hght = b.Hght
          · by_cases ht1 : b.Tmstmp < parent.Tmstmp
            · simp [Verify, hb, hi, hp, hh, ht1] at h
            · by_cases ht2 : now + 3600 ≤ b.Tmstmp
              · simp [Verify, hb, hi, hp, hh, ht1, ht2] at h
              · simp [Verify, hb, hi, hp, hh, ht1, ht2]
          · simp [Verify, hb, hi, hp, hh] at h

theorem Verify_heap_state (now : Int) (vm : VM) (ref : Option Ptr) :
    (Verify now vm ref).2.heap = vm.heap ∧
    (Verify now vm ref).2.state = vm.state := by
  rcases Verify_shape now vm ref with h | ⟨p, b, _, _, _, h⟩ <;>
    rw [h] <;> exact ⟨rfl, rfl⟩

theorem Accept_heap_shape (vm : VM) (ref : Option Ptr) :
    (Accept vm ref).2.heap = vm.heap ∨
    ∃ q b0, ref = some q ∧ listGet vm.heap q = some b0 ∧
      (Accept vm ref).2.heap = listSet vm.heap q (b0.SetStatus .Accepted) := by
  match ref with
  | none => exact Or.inl rfl
  | some q =>
    match hb : listGet vm.heap q with
    | none => left; simp [Accept, hb]
    | some b0 =>
      right
      refine ⟨q, b0, rfl, hb, ?_⟩
      match hi : b0.inited with
      | false => simp [Accept, TimeBlock.SetStatus, hb, hi]
      | true =>
        match h1 : vm.state.failPut with
        | true =>
          simp [Accept, StoreState.PutBlock, TimeBlock.SetStatus, hb, hi, h1]
        | false =>
          match h2 : vm.state.failSetLastAccepted with
          | true =>
            simp [Accept, StoreState.PutBlock, StoreState.SetLastAccepted,
              TimeBlock.SetStatus, hb, hi, h1, h2]
          | false =>
            match h3 : vm.state.failCommit with
            | true =>
              simp [Accept, StoreState.PutBlock, StoreState.SetLastAccepted,
                StoreState.Commit, TimeBlock.SetStatus, hb, hi, h1, h2, h3]
            | false =>
              simp [Accept, StoreState.PutBlock, StoreState.SetLastAccepted,
                StoreState.Commit, TimeBlock.SetStatus, hb, hi, h1, h2, h3]

theorem Reject_heap_shape (vm : VM) (ref : Option Ptr) :
    (Reject vm ref).2.heap = vm.heap ∨
    ∃ q b0, ref = some q ∧ listGet vm.heap q = some b0 ∧
      (Reject vm ref).2.heap = listSet vm.heap q (b0.SetStatus .Rejected) := by
  match ref with
  | none => exact Or.inl rfl
  | some q =>
    match hb : listGet vm.heap q with
    | none => left; simp [Reject, hb]
    | some b0 =>
      right
      refine ⟨q, b0, rfl, hb, ?_⟩
      match hi : b0.inited with
      | false => simp [Reject, TimeBlock.SetStatus, hb, hi]
      | true =>
        match h1 : vm.state.failPut with
        | true =>
          simp [Reject, StoreState.PutBlock, TimeBlock.SetStatus, hb, hi, h1]
        | false =>
          match h3 : vm.state.failCommit with
          | true =>
            simp [Reject, StoreState.PutBlock, StoreState.Commit,
              TimeBlock.SetStatus, hb, hi, h1, h3]
          | false =>
            simp [Reject, StoreState.PutBlock, StoreState.Commit,
              TimeBlock.SetStatus, hb, hi, h1, h3]

theorem applyLabel_verify_elim (now : Int) (ref : Option Ptr) {vm vm2 : VM}
    (happ : applyLabel (.verifyBlk now ref) vm = some vm2) :
    vm2 = (Verify now vm ref).2 := by
  simp only [applyLabel] at happ
  rcases hv : Verify now vm ref with ⟨r, vmr⟩
  rw [hv] at happ
  cases r <;> simp_all

theorem applyLabel_accept_elim (ref : Option Ptr) {vm vm2 : VM}
    (happ : applyLabel (.acceptBlk ref) vm = some vm2) :
    vm2 = (Accept vm ref).2 := by
  simp only [applyLabel] at happ
  rcases hv : Accept vm ref with ⟨r, vmr⟩
  rw [hv] at happ
  cases r <;> simp_all

theorem applyLabel_reject_elim (ref : Option Ptr) {vm vm2 : VM}
    (happ : applyLabel (.rejectBlk ref) vm = some vm2) :
    vm2 = (Reject vm ref).2 := by
  simp only [applyLabel] at happ
  rcases hv : Reject vm ref with ⟨r, vmr⟩
  rw [hv] at happ
  cases r <;> simp_all

/-- C7: the id Initialize binds is a pure function of the bytes argument
alone: two Initialize calls with identical bytes yield identical ids on any
two blocks, whatever the status arguments and the blocks' other state, and a
repeated call changes nothing. -/
theorem C7_id_pure_function_of_bytes (b1 b2 : TimeBlock) (bytes : Bytes)
    (st1 st2 : Status) :
    (b1.Initialize bytes st1).id = (b2.Initialize bytes st2).id ∧
    ((b1.Initialize bytes st1).Initialize bytes st1).id =
      (b1.Initialize bytes st1).id :=
  ⟨rfl, rfl⟩

/-- C10: Initialize computes the id as the hash of exactly its bytes argument
and performs no consistency check against the block's fields: the id equals
the hash of the bytes for every block whatever its parentId, height,
timestamp and payload, and those fields pass through Initialize untouched. -/
theorem C10_id_ignores_block_fields (b : TimeBlock) (bytes : Bytes)
    (st : Status) :
    (b.Initialize bytes st).id = ComputeHash256Array bytes ∧
    (b.Initialize bytes st).PrntID = b.PrntID ∧
    (b.Initialize bytes st).Hght = b.Hght ∧
    (b.Initialize bytes st).Tmstmp = b.Tmstmp ∧
    (b.Initialize bytes st).Dt = b.Dt :=
  ⟨rfl, rfl, rfl, rfl, rfl⟩

/-- C1 (amended): for a block whose parent lookup succeeds, Verify returns
success iff timestamp(B) ≥ timestamp(P), timestamp(B) < now + 1 hour, and
height(B) equals expectedHeight(height(P)), the uint64 increment
(height(P) + 1) mod 2 ^ 64; otherwise it returns the error kind of the first
violated condition, checked in the order height, too-early, too-late. -/
theorem C1_verify_characterization (now : Int) (vm : VM) (p : Ptr)
    (b parent : TimeBlock) (hb : listGet vm.heap p = some b)
    (hi : b.inited = true) (hp : vm.GetBlock b.PrntID = some parent) :
    ((Verify now vm (some p)).1 = .ok ↔
      (b.Hght = expectedHeight parent.Hght ∧ parent.Tmstmp ≤ b.Tmstmp ∧
        b.Tmstmp < now + 3600)) ∧
    (b.Hght ≠ expectedHeight parent.Hght →
      (Verify now vm (some p)).1 =
        .err (.heightMismatch (expectedHeight parent.Hght) b.Hght)) ∧
    (b.Hght = expectedHeight parent.Hght → b.Tmstmp < parent.Tmstmp →
      (Verify now vm (some p)).1 = .err .timestampTooEarly) ∧
    (b.Hght = expectedHeight parent.Hght → parent.Tmstmp ≤ b.Tmstmp →
      now + 3600 ≤ b.Tmstmp →
      (Verify now vm (some p)).1 = .err .timestampTooLate) := by
  by_cases hh : expectedHeight parent.Hght = b.Hght
  · by_cases ht1 : b.Tmstmp < parent.Tmstmp
    · have hres : (Verify now vm (some p)).1 = .err .timestampTooEarly := by
        simp [Verify, hb, hi, hp, hh, ht1]
      refine ⟨?_, ?_, ?_, ?_⟩ <;> simp [hres, ← hh] <;> omega
    · by_cases ht2 : now + 3600 ≤ b.Tmstmp
      · have hres : (Verify now vm (some p)).1 = .err .timestampTooLate := by
          simp [Verify, hb, hi, hp, hh, ht1, ht2]
        refine ⟨?_, ?_, ?_, ?_⟩ <;> simp [hres, ← hh] <;> omega
      · have hres : (Verify now vm (some p)).1 = .ok := by
          simp [Verify, hb, hi, hp, hh, ht1, ht2]
        refine ⟨?_, ?_, ?_, ?_⟩ <;> simp [hres, ← hh] <;> omega
  · have hres : (Verify now vm (some p)).1 =
        .err (.heightMismatch (expectedHeight parent.Hght) b.Hght) := by
      simp [Verify, hb, hi, hp, hh]
    have hne : b.Hght ≠ expectedHeight parent.Hght := fun he => hh he.symm
    refine ⟨?_, ?_, ?_, ?_⟩ <;> simp [hres, hne]

/-- C1 counterexample: with a stored parent of height 2 ^ 64 − 1 (the uint64
maximum) and a live child of height 0, the claim's condition
height(B) = height(P) + 1 fails (0 ≠ 2 ^ 64), yet Verify succeeds, because Go
computes parent.Height() + 1 in uint64 arithmetic, which wraps to 0. -/
theorem C1_counterexample :
    c1vm.GetBlock c1child.PrntID = some c1parentRec.toTimeBlock ∧
    listGet c1vm.heap 0 = some c1child ∧
    (Verify 0 c1vm (some 0)).1 = .ok ∧
    c1child.Hght ≠ c1parentRec.toTimeBlock.Hght + 1 := by
  refine ⟨rfl, rfl, ?_, by decide⟩
  decide

/-- C1 witness: the amended characterization evaluated on a concrete VM with
a stored parent at height 0, time 100, a child at height 1, time 150 and a
clock reading 200. -/
theorem C1_witness :
    ((Verify 200 c1wvm (some 0)).1 = .ok ↔
      (c1wchild.Hght = expectedHeight c1wparent.toTimeBlock.Hght ∧
        c1wparent.toTimeBlock.Tmstmp ≤ c1wchild.Tmstmp ∧
        c1wchild.Tmstmp < 200 + 3600)) ∧
    (c1wchild.Hght ≠ expectedHeight c1wparent.toTimeBlock.Hght →
      (Verify 200 c1wvm (some 0)).1 =
        .err (.heightMismatch (expectedHeight c1wparent.toTimeBlock.Hght)
          c1wchild.Hght)) ∧
    (c1wchild.Hght = expectedHeight c1wparent.toTimeBlock.Hght →
      c1wchild.Tmstmp < c1wparent.toTimeBlock.Tmstmp →
      (Verify 200 c1wvm (some 0)).1 = .err .timestampTooEarly) ∧
    (c1wchild.Hght = expectedHeight c1wparent.toTimeBlock.Hght →
      c1wparent.toTimeBlock.Tmstmp ≤ c1wchild.Tmstmp →
      (200 : Int) + 3600 ≤ c1wchild.Tmstmp →
      (Verify 200 c1wvm (some 0)).1 = .err .timestampTooLate) :=
  C1_verify_characterization 200 c1wvm 0 c1wchild c1wparent.toTimeBlock
    rfl rfl rfl

/-- C2: when Accept returns success, the block record was issued to the store
before the last-accepted pointer (the trace grows by exactly putBlock, then
setLastAccepted, then the one commit that makes both durable together before
the call returns), the store's last-accepted pointer equals the block's id
(durably and as read through the store), the durable records hold the
accepted block, nothing is left staged, and the pending set no longer
contains the block's id. -/
theorem C2_accept_success_postconditions (vm : VM) (ref : Option Ptr)
    (h : (Accept vm ref).1 = .ok) :
    ∃ p b0, ref = some p ∧ listGet vm.heap p = some b0 ∧
      (Accept vm ref).2.state.trace =
        vm.state.trace ++
          [.putBlock b0.id (StoredBlock.ofBlock (b0.SetStatus .Accepted)),
           .setLastAccepted b0.id, .commit] ∧
      (Accept vm ref).2.state.lastAccepted = b0.id ∧
      (Accept vm ref).2.state.getLastAccepted = b0.id ∧
      mapLookup (Accept vm ref).2.state.blocks b0.id =
        some (StoredBlock.ofBlock (b0.SetStatus .Accepted)) ∧
      (Accept vm ref).2.state.staged = [] ∧
      mapLookup (Accept vm ref).2.verifiedBlocks b0.id = none := by
  obtain ⟨p, b0, href, hb, hi, h1, h2, h3⟩ := Accept_ok_elim h
  subst href
  rw [Accept_ok_result vm p b0 hb hi h1 h2 h3]
  refine ⟨p, b0, rfl, hb, rfl, rfl, rfl, ?_, rfl,
    mapLookup_mapDelete_self _ _⟩
  show mapLookup
    ((mapInsert vm.state.staged b0.id
        (StoredBlock.ofBlock (b0.SetStatus .Accepted))).foldl
      (fun a kv => mapInsert a kv.1 kv.2) vm.state.blocks) b0.id = _
  rw [mapInsert, List.foldl_cons,
    mapLookup_foldl_mapInsert_ne _ _
      (fun e he => (mem_mapDelete he).2),
    mapLookup_mapInsert_self]

/-- C2 witness: the postconditions evaluated on a concrete VM accepting its
one pending block over a store whose operations all succeed. -/
theorem C2_witness :
    ∃ p b0, some 0 = some p ∧ listGet c2vm.heap p = some b0 ∧
      (Accept c2vm (some 0)).2.state.trace =
        c2vm.state.trace ++
          [.putBlock b0.id (StoredBlock.ofBlock (b0.SetStatus .Accepted)),
           .setLastAccepted b0.id, .commit] ∧
      (Accept c2vm (some 0)).2.state.lastAccepted = b0.id ∧
      (Accept c2vm (some 0)).2.state.getLastAccepted = b0.id ∧
      mapLookup (Accept c2vm (some 0)).2.state.blocks b0.id =
        some (StoredBlock.ofBlock (b0.SetStatus .Accepted)) ∧
      (Accept c2vm (some 0)).2.state.staged = [] ∧
      mapLookup (Accept c2vm (some 0)).2.verifiedBlocks b0.id = none :=
  C2_accept_success_postconditions c2vm (some 0) (by decide)

/-- C6: a successful Verify registers the block in verifiedBlocks under its
id, replacing any prior entry for that id and changing nothing else of the
VM; a repeated Verify of the same block re-runs all checks against the same
heap and store, and when it also succeeds it leaves the whole state, the
pending set included, exactly as the single successful call did. -/
theorem C6_verify_registers_and_is_idempotent (now now2 : Int) (vm vm2 : VM)
    (p : Ptr) (b : TimeBlock) (hb : listGet vm.heap p = some b)
    (hver : Verify now vm (some p) = (.ok, vm2)) :
    mapLookup vm2.verifiedBlocks b.id = some p ∧
    (∀ k, k ≠ b.id →
      mapLookup vm2.verifiedBlocks k = mapLookup vm.verifiedBlocks k) ∧
    vm2.heap = vm.heap ∧ vm2.state = vm.state ∧
    ((Verify now2 vm2 (some p)).1 = .ok →
      (Verify now2 vm2 (some p)).2 = vm2) := by
  have h1 : (Verify now vm (some p)).1 = .ok := by rw [hver]
  obtain ⟨p2, b2, hps, hb2, _, hsnd⟩ := Verify_ok_elim h1
  obtain rfl : p = p2 := by simpa using hps
  obtain rfl : b = b2 := by rw [hb] at hb2; simpa using hb2
  have hvm2 : vm2 =
      { vm with verifiedBlocks := mapInsert vm.verifiedBlocks b.id p } := by
    rw [hver] at hsnd; exact hsnd
  subst hvm2
  refine ⟨mapLookup_mapInsert_self _ _ _,
    fun k hk => mapLookup_mapInsert_ne _ _ hk, rfl, rfl, ?_⟩
  intro h2
  obtain ⟨p3, b3, hps3, hb3, _, hsnd3⟩ := Verify_ok_elim h2
  obtain rfl : p = p3 := by simpa using hps3
  obtain rfl : b = b3 := by
    rw [show listGet ({ vm with verifiedBlocks := mapInsert vm.verifiedBlocks b.id p } : VM).heap p = some b from hb] at hb3
    simpa using hb3
  rw [hsnd3]
  simp [mapInsert_mapInsert_self]

/-- C6 witness: a concrete block Verify-registered into an empty pending set,
then Verify-checked again with the same outcome and no further change. -/
theorem C6_witness :
    mapLookup c6vm2.verifiedBlocks c6blk.id = some 0 ∧
    (∀ k, k ≠ c6blk.id →
      mapLookup c6vm2.verifiedBlocks k = mapLookup c6vm.verifiedBlocks k) ∧
    c6vm2.heap = c6vm.heap ∧ c6vm2.state = c6vm.state ∧
    ((Verify 30 c6vm2 (some 0)).1 = .ok →
      (Verify 30 c6vm2 (some 0)).2 = c6vm2) :=
  C6_verify_registers_and_is_idempotent 30 30 c6vm c6vm2 0 c6blk rfl
    (by decide)

/-- C8: whenever Accept or Reject returns a persistence error, the in-memory
status field already holds the terminal value (Accepted for Accept, Rejected
for Reject) in the state the call returns: the mutation precedes every store
write and is not rolled back. -/
theorem C8_status_mutated_before_error (vmA vmR : VM) (refA refR : Option Ptr)
    (eA eR : PersistError) (hA : (Accept vmA refA).1 = .err eA)
    (hR : (Reject vmR refR).1 = .err eR) :
    (∃ p b0, refA = some p ∧ listGet vmA.heap p = some b0 ∧
      listGet (Accept vmA refA).2.heap p = some (b0.SetStatus .Accepted)) ∧
    (∃ p b0, refR = some p ∧ listGet vmR.heap p = some b0 ∧
      listGet (Reject vmR refR).2.heap p = some (b0.SetStatus .Rejected)) :=
  ⟨Accept_err_status hA, Reject_err_status hR⟩

/-- C8 witness: over a store whose PutBlock fails, Accept and Reject on a
concrete block return the persistence error with the status already
terminal. -/
theorem C8_witness :
    (∃ p b0, some 0 = some p ∧ listGet c8vm.heap p = some b0 ∧
      listGet (Accept c8vm (some 0)).2.heap p =
        some (b0.SetStatus .Accepted)) ∧
    (∃ p b0, some 0 = some p ∧ listGet c8vm.heap p = some b0 ∧
      listGet (Reject c8vm (some 0)).2.heap p =
        some (b0.SetStatus .Rejected)) :=
  C8_status_mutated_before_error c8vm c8vm (some 0) (some 0)
    .putBlock .putBlock (by decide) (by decide)

/-- C9 counterexample: Accept and Reject invoked on a nil block reference
crash (the unguarded b.SetStatus dereferences nil), so not every exposed
operation completes or returns an error on every input; only Verify guards
nil, returning the NilBlock error. -/
theorem C9_counterexample :
    (Accept c9vm none).1 = .crash ∧ (Reject c9vm none).1 = .crash ∧
    (Verify 0 c9vm none).1 = .err .blockNil :=
  ⟨rfl, rfl, rfl⟩

/-- C9 (amended): Verify guards the nil receiver and reports it as the
NilBlock error; Accept and Reject have no such guard and crash on nil; on a
live initialized block reference no operation crashes, whatever the store
does. -/
theorem C9_no_crash_on_live_blocks (now : Int) (vm : VM) (p : Ptr)
    (b : TimeBlock) (hb : listGet vm.heap p = some b)
    (hi : b.inited = true) :
    (Verify now vm none).1 = .err .blockNil ∧
    (Accept vm none).1 = .crash ∧ (Reject vm none).1 = .crash ∧
    (Verify now vm (some p)).1 ≠ .crash ∧
    (Accept vm (some p)).1 ≠ .crash ∧ (Reject vm (some p)).1 ≠ .crash := by
  refine ⟨rfl, rfl, rfl, ?_, ?_, ?_⟩
  · match hp : vm.GetBlock b.PrntID with
    | none => simp [Verify, hb, hi, hp]
    | some parent =>
      by_cases hh : expectedHeight parent.Hght = b.Hght
      · by_cases ht1 : b.Tmstmp < parent.Tmstmp
        · simp [Verify, hb, hi, hp, hh, ht1]
        · by_cases ht2 : now + 3600 ≤ b.Tmstmp <;>
            simp [Verify, hb, hi, hp, hh, ht1, ht2]
      · simp [Verify, hb, hi, hp, hh]
  · match h1 : vm.state.failPut with
    | true =>
      simp [Accept, StoreState.PutBlock, TimeBlock.SetStatus, hb, hi, h1]
    | false =>
      match h2 : vm.state.failSetLastAccepted with
      | true =>
        simp [Accept, StoreState.PutBlock, StoreState.SetLastAccepted,
          TimeBlock.SetStatus, hb, hi, h1, h2]
      | false =>
        match h3 : vm.state.failCommit with
        | true =>
          simp [Accept, StoreState.PutBlock, StoreState.SetLastAccepted,
            StoreState.Commit, TimeBlock.SetStatus, hb, hi, h1, h2, h3]
        | false =>
          simp [Accept, StoreState.PutBlock, StoreState.SetLastAccepted,
            StoreState.Commit, TimeBlock.SetStatus, hb, hi, h1, h2, h3]
  · match h1 : vm.state.failPut with
    | true =>
      simp [Reject, StoreState.PutBlock, TimeBlock.SetStatus, hb, hi, h1]
    | false =>
      match h3 : vm.state.failCommit with
      | true =>
        simp [Reject, StoreState.PutBlock, StoreState.Commit,
          TimeBlock.SetStatus, hb, hi, h1, h3]
      | false =>
        simp [Reject, StoreState.PutBlock, StoreState.Commit,
          TimeBlock.SetStatus, hb, hi, h1, h3]

/-- C9 witness: the amended statement evaluated on a concrete VM holding one
live initialized block. -/
theorem C9_witness :
    (Verify 0 c9vm none).1 = .err .blockNil ∧
    (Accept c9vm none).1 = .crash ∧ (Reject c9vm none).1 = .crash ∧
    (Verify 0 c9vm (some 0)).1 ≠ .crash ∧
    (Accept c9vm (some 0)).1 ≠ .crash ∧ (Reject c9vm (some 0)).1 ≠ .crash :=
  C9_no_crash_on_live_blocks 0 c9vm 0 c9blk rfl rfl

/-- C4 counterexample: statuses are not monotone: after a successful Accept
the block's status is Accepted, yet a subsequent Reject call (an exposed
operation) succeeds and overwrites the status with Rejected. -/
theorem C4_counterexample :
    Reachable c4vmA ∧
    (listGet c4vmA.heap 0).map TimeBlock.status = some Status.Accepted ∧
    (Reject c4vmA (some 0)).1 = .ok ∧
    (listGet c4vmR.heap 0).map TimeBlock.status = some Status.Rejected := by
  have h1 : Reachable c4vm1 :=
    .step (.newBlk 5 1 [] 0) (.start [] 0 false false false) (by decide)
  have h2 : Reachable c4vm2 :=
    .step (.initBlk 0 [4] .Processing) h1 (by decide)
  have h3 : Reachable c4vmA := .step (.acceptBlk (some 0)) h2 (by decide)
  exact ⟨h3, by decide, by decide, by decide⟩

/-- C4 (amended): a block's status is changed only by an Accept, Reject or
Initialize call aimed at that same block (and Accept and Reject overwrite it
unconditionally, so monotonicity holds only while the engine makes at most
one terminal call per block); every other exposed call, and any call aimed
at another block, leaves the status exactly as it was. -/
theorem C4_status_changed_only_by_targeted_calls (l : Label) (vm vm2 : VM)
    (p : Ptr) (b : TimeBlock) (happ : applyLabel l vm = some vm2)
    (hb : listGet vm.heap p = some b)
    (hni : ∀ bs st, l ≠ .initBlk p bs st)
    (hna : l ≠ .acceptBlk (some p)) (hnr : l ≠ .rejectBlk (some p)) :
    ∃ b2, listGet vm2.heap p = some b2 ∧ b2.status = b.status := by
  cases l with
  | newBlk pid hgt d t =>
    simp only [applyLabel, Option.some.injEq] at happ
    subst happ
    exact ⟨b, listGet_append_left _ hb, rfl⟩
  | initBlk q bs st =>
    have hq : q ≠ p := by
      intro he; exact hni bs st (by rw [he])
    match hbq : listGet vm.heap q with
    | none =>
      simp only [applyLabel, hbq] at happ
      exact Option.noConfusion happ
    | some bq =>
      simp only [applyLabel, hbq, Option.some.injEq] at happ
      subst happ
      refine ⟨b, ?_, rfl⟩
      show listGet (listSet vm.heap q (bq.Initialize bs st)) p = some b
      rw [listGet_listSet_ne _ _ (Ne.symm hq)]
      exact hb
  | verifyBlk now ref =>
    obtain rfl := applyLabel_verify_elim now ref happ
    have hh := (Verify_heap_state now vm ref).1
    exact ⟨b, by rw [hh]; exact hb, rfl⟩
  | acceptBlk ref =>
    obtain rfl := applyLabel_accept_elim ref happ
    rcases Accept_heap_shape vm ref with hsame | ⟨q, b0, hrefq, hbq, hset⟩
    · exact ⟨b, by rw [hsame]; exact hb, rfl⟩
    · have hq : q ≠ p := by
        intro he; subst he; exact hna (by rw [hrefq])
      refine ⟨b, ?_, rfl⟩
      rw [hset, listGet_listSet_ne _ _ (Ne.symm hq)]
      exact hb
  | rejectBlk ref =>
    obtain rfl := applyLabel_reject_elim ref happ
    rcases Reject_heap_shape vm ref with hsame | ⟨q, b0, hrefq, hbq, hset⟩
    · exact ⟨b, by rw [hsame]; exact hb, rfl⟩
    · have hq : q ≠ p := by
        intro he; subst he; exact hnr (by rw [hrefq])
      refine ⟨b, ?_, rfl⟩
      rw [hset, listGet_listSet_ne _ _ (Ne.symm hq)]
      exact hb

/-- C4 witness: constructing an unrelated new block on a VM whose block 0 is
Accepted leaves that status untouched. -/
theorem C4_witness :
    ∃ b2, listGet c4vmN.heap 0 = some b2 ∧
      b2.status = (((newTimeBlock 5 1 [] 0).Initialize [4]
        Status.Processing).SetStatus Status.Accepted).status :=
  C4_status_changed_only_by_targeted_calls (.newBlk 1 1 [] 0) c4vmA c4vmN 0
    (((newTimeBlock 5 1 [] 0).Initialize [4] Status.Processing).SetStatus
      .Accepted)
    rfl (by decide) (fun bs st h => Label.noConfusion h)
    (fun h => Label.noConfusion h) (fun h => Label.noConfusion h)

/-- C3 counterexample: Accept returns a PersistenceError (PutBlock fails)
after already setting the status, and returns before the delete, so the
pending set still holds the block, now with status Accepted, in a state
reachable by Initialize, Verify, Accept calls. -/
theorem C3_counterexample :
    Reachable c3vmBad ∧
    (Accept c3vm3 (some 0)).1 = .err .putBlock ∧
    mapLookup c3vmBad.verifiedBlocks (ComputeHash256Array [7]) = some 0 ∧
    (listGet c3vmBad.heap 0).map TimeBlock.status = some Status.Accepted := by
  have h1 : Reachable c3vm1 :=
    .step (.newBlk 40 1 [] 0)
      (.start [(40, c3grec)] 40 true false false) (by decide)
  have h2 : Reachable c3vm2 :=
    .step (.initBlk 0 [7] .Processing) h1 (by decide)
  have h3 : Reachable c3vm3 := .step (.verifyBlk 0 (some 0)) h2 (by decide)
  have h4 : Reachable c3vmBad := .step (.acceptBlk (some 0)) h3 (by decide)
  exact ⟨h4, by decide, by decide, by decide⟩

/-- C3 (amended): in every state reached while the engine honors the spec's
contracts — a block is not re-Initialized while the pending set still points
to it, Verify is not called on an already decided block — and while every
Accept and Reject call returns success, every pending entry points to a live
block carrying the entry's id whose status is neither Accepted nor Rejected.
The unamended claim fails exactly at a PersistenceError: a failed Accept or
Reject returns before the delete and leaves the terminal-status block in the
pending set (C3_counterexample). -/
theorem C3_pending_entries_never_terminal (vm : VM) (h : ReachableGood vm) :
    ∀ e ∈ vm.verifiedBlocks, ∃ b, listGet vm.heap e.2 = some b ∧
      b.id = e.1 ∧ b.status ≠ .Accepted ∧ b.status ≠ .Rejected := by
  induction h with
  | start blocks la fp fs fc =>
    intro e he
    simp [initialVM] at he
  | step l hr hg happ ih =>
    rename_i vmp vm2
    cases l with
    | newBlk pid hgt d t =>
      simp only [applyLabel, Option.some.injEq] at happ
      subst happ
      intro e he
      obtain ⟨b, hbe, hid, hs1, hs2⟩ := ih e he
      exact ⟨b, listGet_append_left _ hbe, hid, hs1, hs2⟩
    | initBlk q bs st =>
      match hbq : listGet vmp.heap q with
      | none =>
        simp only [applyLabel, hbq] at happ
        exact Option.noConfusion happ
      | some bq =>
        simp only [applyLabel, hbq, Option.some.injEq] at happ
        subst happ
        intro e he
        obtain ⟨b, hbe, hid, hs1, hs2⟩ := ih e he
        have hne : e.2 ≠ q := hg e he
        refine ⟨b, ?_, hid, hs1, hs2⟩
        show listGet (listSet vmp.heap q (bq.Initialize bs st)) e.2 = some b
        rw [listGet_listSet_ne _ _ hne]
        exact hbe
    | verifyBlk now ref =>
      obtain rfl := applyLabel_verify_elim now ref happ
      rcases Verify_shape now vmp ref with hsame | ⟨p, b, hrefp, hbp, hok, hins⟩
      · rw [hsame]; exact ih
      · rw [hins]
        intro e he
        rcases mem_mapInsert he with rfl | hmem
        · obtain ⟨hs1, hs2⟩ := hg p b hrefp hbp
          exact ⟨b, hbp, rfl, hs1, hs2⟩
        · exact ih e hmem
    | acceptBlk ref =>
      obtain rfl := applyLabel_accept_elim ref happ
      obtain ⟨p, b0, hrefp, hb0, hi, h1, h2, h3⟩ := Accept_ok_elim hg
      subst hrefp
      rw [Accept_ok_result vmp p b0 hb0 hi h1 h2 h3]
      intro e he
      obtain ⟨hmem, hne⟩ := mem_mapDelete he
      obtain ⟨b, hbe, hid, hs1, hs2⟩ := ih e hmem
      by_cases hpe : e.2 = p
      · rw [hpe, hb0] at hbe
        obtain rfl : b0 = b := by simpa using hbe
        exact absurd hid (Ne.symm hne)
      · refine ⟨b, ?_, hid, hs1, hs2⟩
        show listGet (listSet vmp.heap p (b0.SetStatus .Accepted)) e.2 = some b
        rw [listGet_listSet_ne _ _ hpe]
        exact hbe
    | rejectBlk ref =>
      obtain rfl := applyLabel_reject_elim ref happ
      obtain ⟨p, b0, hrefp, hb0, hi, h1, h3⟩ := Reject_ok_elim hg
      subst hrefp
      rw [Reject_ok_result vmp p b0 hb0 hi h1 h3]
      intro e he
      obtain ⟨hmem, hne⟩ := mem_mapDelete he
      obtain ⟨b, hbe, hid, hs1, hs2⟩ := ih e hmem
      by_cases hpe : e.2 = p
      · rw [hpe, hb0] at hbe
        obtain rfl : b0 = b := by simpa using hbe
        exact absurd hid (Ne.symm hne)
      · refine ⟨b, ?_, hid, hs1, hs2⟩
        show listGet (listSet vmp.heap p (b0.SetStatus .Rejected)) e.2 = some b
        rw [listGet_listSet_ne _ _ hpe]
        exact hbe

/-- C3 witness: the invariant evaluated on the pending entry a contract
respecting run (construct, Initialize, Verify over a fault-free store)
produces. -/
theorem C3_witness :
    ∃ b, listGet c3wvm3.heap 0 = some b ∧
      b.id = ComputeHash256Array [8] ∧
      b.status ≠ Status.Accepted ∧ b.status ≠ Status.Rejected := by
  have hg2 : GoodLabel c3wvm1 (.initBlk 0 [8] .Processing) := by
    intro e he
    simp [c3wvm1, c3wvm0, initialVM] at he
  have hg3 : GoodLabel c3wvm2 (.verifyBlk 0 (some 0)) := by
    intro p b hp hb
    obtain rfl : (0 : Ptr) = p := by simpa using hp
    obtain rfl : (newTimeBlock 40 1 [] 0).Initialize [8] .Processing = b := by
      simpa [c3wvm2, c3wvm0, initialVM, listGet] using hb
    exact ⟨by decide, by decide⟩
  have h1 : ReachableGood c3wvm1 :=
    .step (.newBlk 40 1 [] 0)
      (.start [(40, c3wrec)] 40 false false false) trivial (by decide)
  have h2 : ReachableGood c3wvm2 :=
    .step (.initBlk 0 [8] .Processing) h1 hg2 (by decide)
  have h3 : ReachableGood c3wvm3 :=
    .step (.verifyBlk 0 (some 0)) h2 hg3 (by decide)
  exact C3_pending_entries_never_terminal c3wvm3 h3
    (ComputeHash256Array [8], 0) (by decide)

/-- C5: Reject never writes the last-accepted pointer, whatever its outcome:
the store trace grows only by events other than setLastAccepted and the
last-accepted pointer reads the same value as before the call; when Reject
succeeds, the pending set no longer contains the block's id. -/
theorem C5_reject_never_writes_last_accepted (vm : VM) (ref : Option Ptr) :
    (∃ t, (Reject vm ref).2.state.trace = vm.state.trace ++ t ∧
        ∀ e ∈ t, ∀ i, e ≠ StoreEvent.setLastAccepted i) ∧
    (Reject vm ref).2.state.getLastAccepted = vm.state.getLastAccepted ∧
    ((Reject vm ref).1 = .ok →
      ∃ p b0, ref = some p ∧ listGet vm.heap p = some b0 ∧
        mapLookup (Reject vm ref).2.verifiedBlocks b0.id = none) := by
  match ref with
  | none =>
    exact ⟨⟨[], by simp [Reject], by simp⟩, rfl,
      fun h => by simp [Reject] at h⟩
  | some p =>
    match hb : listGet vm.heap p with
    | none =>
      exact ⟨⟨[], by simp [Reject, hb], by simp⟩, by simp [Reject, hb],
        fun h => by simp [Reject, hb] at h⟩
    | some b0 =>
      match hi : b0.inited with
      | false =>
        exact ⟨⟨[], by simp [Reject, TimeBlock.SetStatus, hb, hi], by simp⟩,
          by simp [Reject, TimeBlock.SetStatus, hb, hi],
          fun h => by simp [Reject, TimeBlock.SetStatus, hb, hi] at h⟩
      | true =>
        match h1 : vm.state.failPut with
        | true =>
          exact ⟨⟨[], by simp [Reject, StoreState.PutBlock,
              TimeBlock.SetStatus, hb, hi, h1], by simp⟩,
            by simp [Reject, StoreState.PutBlock, TimeBlock.SetStatus,
              hb, hi, h1],
            fun h => by simp [Reject, StoreState.PutBlock,
              TimeBlock.SetStatus, hb, hi, h1] at h⟩
        | false =>
          match h3 : vm.state.failCommit with
          | true =>
            exact ⟨⟨[.putBlock b0.id
                  (StoredBlock.ofBlock (b0.SetStatus .Rejected))],
                by simp [Reject, StoreState.PutBlock, StoreState.Commit,
                  TimeBlock.SetStatus, hb, hi, h1, h3],
                by simp⟩,
              by simp [Reject, StoreState.PutBlock, StoreState.Commit,
                StoreState.getLastAccepted, TimeBlock.SetStatus,
                hb, hi, h1, h3],
              fun h => by simp [Reject, StoreState.PutBlock,
                StoreState.Commit, TimeBlock.SetStatus, hb, hi, h1, h3] at h⟩
          | false =>
            rw [Reject_ok_result vm p b0 hb hi h1 h3]
            refine ⟨⟨[.putBlock b0.id
                (StoredBlock.ofBlock (b0.SetStatus .Rejected)), .commit],
                rfl, by simp⟩,
              by simp [StoreState.getLastAccepted],
              fun h => ⟨p, b0, rfl, hb, mapLookup_mapDelete_self _ _⟩⟩

end Timestampvm
